import Mathlib

/-!
Shallow embedding of the vector-editor core: the snapshot-based history
engine (`src/utils/historyManager.ts` and the `useHistory` hook in
`src/utils/fileOperations.ts`), the pointer-driven drawing handlers
(`src/components/canvas/Canvas.tsx`), the layer store
(`handleLayer*` in `src/App.tsx`), the gradient-stop editor
(`GradientEditor` in `src/components/properties/FillEditor.tsx`), the
linear-gradient coordinate mapping (`createLinearGradient` in
`src/utils/fillStyles.ts`), and the export dispatcher
(`exportToFormat` in `src/utils/fileOperations.ts`).

Machine numbers that the code only ever uses at integral values (pointer
coordinates, history indices) are modelled as `Int`; gradient stop offsets
(JS numbers in `[0,1]`) as `Rat`; the trigonometric gradient mapping over
`ℝ`.  The serialized canvas (`JSON.stringify(canvas.toJSON())`) is modelled
as an opaque `String`, with `loadFromJSON` as its inverse.
-/

/-- `MAX_HISTORY_LENGTH` from historyManager.ts: maximum number of
snapshots kept in history. -/
def MAX_HISTORY_LENGTH : Nat := 50

/-- One history entry (`HistoryState` in historyManager.ts): the serialized
canvas state plus the capture time (`Date.now()`). -/
structure HistoryState where
  canvasState : String
  timestamp : Nat
  deriving DecidableEq

/-- The `HistoryManager` class state: the snapshot list, the cursor
(`currentStateIndex`, `-1` when empty), the canvas it serializes/restores
(modelled by its serialized string), and the replay guard
(`isProcessingAction`). -/
structure HistoryManager where
  history : List HistoryState
  currentStateIndex : Int
  canvas : String
  isProcessingAction : Bool
  deriving DecidableEq

/-- `HistoryManager.saveState`: no-op while the replay guard is held;
otherwise serialize the canvas, truncate the entries after the cursor when
the cursor is not at the end (`history.slice(0, currentStateIndex + 1)`),
push the new state, move the cursor to the last index, and when the length
exceeds `MAX_HISTORY_LENGTH` shift off the oldest entry and decrement the
cursor. -/
def HistoryManager.saveState (m : HistoryManager) (now : Nat) : HistoryManager :=
  if m.isProcessingAction then m
  else
    let newState : HistoryState := { canvasState := m.canvas, timestamp := now }
    let truncated :=
      if m.currentStateIndex < (m.history.length : Int) - 1 then
        m.history.take (m.currentStateIndex + 1).toNat
      else m.history
    let pushed := truncated ++ [newState]
    if pushed.length > MAX_HISTORY_LENGTH then
      { m with history := pushed.drop 1, currentStateIndex := (pushed.length : Int) - 2 }
    else
      { m with history := pushed, currentStateIndex := (pushed.length : Int) - 1 }

/-- `HistoryManager.loadState`: `canvas.clear()` followed by
`canvas.loadFromJSON(state.canvasState)`, i.e. the canvas becomes exactly
the recorded serialized state. -/
def HistoryManager.loadState (m : HistoryManager) (s : HistoryState) : HistoryManager :=
  { m with canvas := s.canvasState }

/-- `HistoryManager.undo`: returns `false` when `currentStateIndex <= 0`;
otherwise sets the replay guard, decrements the cursor, loads the snapshot
at the new cursor, clears the guard and returns `true`.  (The indexed
access `history[currentStateIndex]` is in range whenever the cursor
invariant holds; the `none` arm is unreachable then.) -/
def HistoryManager.undo (m : HistoryManager) : HistoryManager × Bool :=
  if m.currentStateIndex ≤ 0 then (m, false)
  else
    let idx := m.currentStateIndex - 1
    let m1 := { m with currentStateIndex := idx, isProcessingAction := true }
    let m2 :=
      match m1.history[idx.toNat]? with
      | some s => m1.loadState s
      | none => m1
    ({ m2 with isProcessingAction := false }, true)

/-- `HistoryManager.redo`: symmetric to `undo`, no-op at the last index. -/
def HistoryManager.redo (m : HistoryManager) : HistoryManager × Bool :=
  if m.currentStateIndex ≥ (m.history.length : Int) - 1 then (m, false)
  else
    let idx := m.currentStateIndex + 1
    let m1 := { m with currentStateIndex := idx, isProcessingAction := true }
    let m2 :=
      match m1.history[idx.toNat]? with
      | some s => m1.loadState s
      | none => m1
    ({ m2 with isProcessingAction := false }, true)

/-- `HistoryManager.canUndo`: `currentStateIndex > 0`. -/
def HistoryManager.canUndo (m : HistoryManager) : Bool :=
  decide (0 < m.currentStateIndex)

/-- `HistoryManager.canRedo`: `currentStateIndex < history.length - 1`. -/
def HistoryManager.canRedo (m : HistoryManager) : Bool :=
  decide (m.currentStateIndex < (m.history.length : Int) - 1)

/-- `HistoryManager.clearHistory`: empty the list, reset the cursor to
`-1`, then `saveState()` the current canvas as the first entry. -/
def HistoryManager.clearHistory (m : HistoryManager) (now : Nat) : HistoryManager :=
  ({ m with history := [], currentStateIndex := -1 }).saveState now

/-- `undo` as it actually executes: restoring the snapshot
(clear-and-reconstruct) fires canvas mutation events (`object:added`,
`object:removed`, ...) whose handlers call `saveState` while the replay
guard is still held; `captures` lists the timestamps of those re-entrant
capture requests. -/
def HistoryManager.undoFiring (m : HistoryManager) (captures : List Nat) :
    HistoryManager × Bool :=
  if m.currentStateIndex ≤ 0 then (m, false)
  else
    let idx := m.currentStateIndex - 1
    let m1 := { m with currentStateIndex := idx, isProcessingAction := true }
    let m2 :=
      match m1.history[idx.toNat]? with
      | some s => m1.loadState s
      | none => m1
    let m3 := captures.foldl (fun s t => s.saveState t) m2
    ({ m3 with isProcessingAction := false }, true)

/-- `redo` with the re-entrant capture requests fired by the restore made
explicit, as in `HistoryManager.undoFiring`. -/
def HistoryManager.redoFiring (m : HistoryManager) (captures : List Nat) :
    HistoryManager × Bool :=
  if m.currentStateIndex ≥ (m.history.length : Int) - 1 then (m, false)
  else
    let idx := m.currentStateIndex + 1
    let m1 := { m with currentStateIndex := idx, isProcessingAction := true }
    let m2 :=
      match m1.history[idx.toNat]? with
      | some s => m1.loadState s
      | none => m1
    let m3 := captures.foldl (fun s t => s.saveState t) m2
    ({ m3 with isProcessingAction := false }, true)

/-- The manager as built by the `HistoryManager` constructor: empty
history, cursor `-1`, then `saveState()` of the initial canvas. -/
def initialManager (c0 : String) (t0 : Nat) : HistoryManager :=
  HistoryManager.saveState
    { history := [], currentStateIndex := -1, canvas := c0, isProcessingAction := false } t0

/-- One committed mutation: the canvas changes to a new serialized state
(`p.1`) and the fired mutation event triggers `saveState` at time `p.2`. -/
def commit (m : HistoryManager) (p : String × Nat) : HistoryManager :=
  ({ m with canvas := p.1 }).saveState p.2

/-- A sequence of committed mutations applied in order. -/
def runCommits (m : HistoryManager) (muts : List (String × Nat)) : HistoryManager :=
  muts.foldl commit m

/-- `undo` iterated `n` times (discarding the returned booleans). -/
def HistoryManager.undoTimes (m : HistoryManager) : Nat → HistoryManager
  | 0 => m
  | n + 1 => ((m.undo).fst).undoTimes n

/-- The public operations of the history engine. -/
inductive HistOp
  | save (now : Nat)
  | doUndo
  | doRedo
  | clear (now : Nat)

/-- Apply one public history operation. -/
def applyHistOp (m : HistoryManager) : HistOp → HistoryManager
  | .save now => m.saveState now
  | .doUndo => (m.undo).fst
  | .doRedo => (m.redo).fst
  | .clear now => m.clearHistory now

/-- Apply a sequence of public history operations. -/
def runHistOps (m : HistoryManager) (ops : List HistOp) : HistoryManager :=
  ops.foldl applyHistOp m

/-- The history invariant claimed by the spec: at most
`MAX_HISTORY_LENGTH` snapshots and cursor in `[-1, length - 1]`. -/
def HistoryManager.Inv (m : HistoryManager) : Prop :=
  m.history.length ≤ MAX_HISTORY_LENGTH ∧
  -1 ≤ m.currentStateIndex ∧ m.currentStateIndex ≤ (m.history.length : Int) - 1

/-- Fifty committed mutations, the i-th one leaving the serialized canvas
at `toString (i + 1)`. -/
def overflowMuts : List (String × Nat) :=
  (List.range 50).map (fun i => (toString (i + 1), i + 1))

/-- A pointer position as delivered to the mouse handlers in Canvas.tsx
(the drawing examples only ever use integral coordinates). -/
structure Pointer where
  x : Int
  y : Int
  deriving DecidableEq

/-- The transient `fabric.Rect` fields the rectangle tool sets:
`left`/`top` anchor corner plus `width`/`height`. -/
structure RectShape where
  left : Int
  top : Int
  width : Int
  height : Int
  deriving DecidableEq

/-- The transient `fabric.Ellipse` fields the ellipse tool sets:
`left`/`top` anchor corner plus radii `rx`/`ry`. -/
structure EllipseShape where
  left : Int
  top : Int
  rx : Int
  ry : Int
  deriving DecidableEq

/-- `handleMouseDown`, rectangle tool: a new `fabric.Rect` anchored at the
pointer with `width: 0, height: 0`. -/
def mouseDownRectangle (p : Pointer) : RectShape :=
  { left := p.x, top := p.y, width := 0, height := 0 }

/-- `handleMouseMove`, rectangle tool:
`width = Math.max(1, Math.abs(pointer.x - rect.left))` and likewise for
`height`; `left`/`top` are never touched. -/
def mouseMoveRectangle (r : RectShape) (p : Pointer) : RectShape :=
  { r with
    width := max 1 ((p.x - r.left).natAbs : Int),
    height := max 1 ((p.y - r.top).natAbs : Int) }

/-- `handleMouseDown`, ellipse tool: a new `fabric.Ellipse` anchored at the
pointer with `rx: 0, ry: 0`. -/
def mouseDownEllipse (p : Pointer) : EllipseShape :=
  { left := p.x, top := p.y, rx := 0, ry := 0 }

/-- `handleMouseMove`, ellipse tool:
`rx = Math.max(1, Math.abs(pointer.x - ellipse.left))` and likewise for
`ry`; `left`/`top` are never touched. -/
def mouseMoveEllipse (e : EllipseShape) (p : Pointer) : EllipseShape :=
  { e with
    rx := max 1 ((p.x - e.left).natAbs : Int),
    ry := max 1 ((p.y - e.top).natAbs : Int) }

/-- A canvas object as the layer code in App.tsx sees it: an identifier and
the `data.isGridLine` flag that exempts grid lines from layer bookkeeping. -/
structure FabricObjectModel where
  objId : Nat
  isGridLine : Bool
  deriving DecidableEq

/-- A `Layer` record from src/types.ts (ids modelled as `Nat` in place of
uuid strings). -/
structure Layer where
  id : Nat
  name : String
  visible : Bool
  locked : Bool
  objects : List FabricObjectModel
  deriving DecidableEq

/-- The slice of App.tsx state the layer handlers read and write: the layer
list, `currentLayerId`, and the live canvas contents. -/
structure AppState where
  layers : List Layer
  currentLayerId : Nat
  canvasObjects : List FabricObjectModel
  deriving DecidableEq

/-- The error notification `handleLayerDelete` posts when refusing an
operation (the spec's `ValidationError`). -/
inductive LayerNotice
  | validationError (message : String)
  deriving DecidableEq

/-- `handleLayerDelete` from App.tsx: refuses (error notification, no
mutation) when only one layer exists; otherwise removes the layer, and if
it was the current one activates the first remaining layer and rebuilds the
canvas as the grid lines plus that layer's stored objects.  (`updatedLayers[0]`
is in range whenever more than one layer exists and layer ids are distinct;
the `none` arm is unreachable then.) -/
def handleLayerDelete (s : AppState) (id : Nat) : AppState × Option LayerNotice :=
  if s.layers.length ≤ 1 then
    (s, some (.validationError "Cannot delete the last layer"))
  else
    let updatedLayers := s.layers.filter (fun l => l.id != id)
    if id = s.currentLayerId then
      match updatedLayers.head? with
      | some newCurrentLayer =>
          ({ layers := updatedLayers,
             currentLayerId := newCurrentLayer.id,
             canvasObjects :=
               s.canvasObjects.filter (fun o => o.isGridLine) ++ newCurrentLayer.objects },
           none)
      | none => ({ s with layers := updatedLayers }, none)
    else
      ({ s with layers := updatedLayers }, none)

/-- A gradient stop (`GradientStop` in fillStyles.ts): an offset in `[0,1]`
and a color; offsets modelled as `Rat`. -/
structure GradientStop where
  offset : Rat
  color : String
  deriving DecidableEq

/-- The comparison `(a, b) => a.offset - b.offset` used to sort stops. -/
def stopLE (a b : GradientStop) : Prop := a.offset ≤ b.offset

instance : DecidableRel stopLE :=
  fun a b => inferInstanceAs (Decidable (a.offset ≤ b.offset))

instance : IsTotal GradientStop stopLE := ⟨fun a b => le_total a.offset b.offset⟩

instance : IsTrans GradientStop stopLE := ⟨fun _ _ _ h1 h2 => le_trans h1 h2⟩

/-- `newStops.sort((a, b) => a.offset - b.offset)`: a stable sort by
offset. -/
def sortStops (stops : List GradientStop) : List GradientStop :=
  List.insertionSort stopLE stops

/-- The gap search in `handleAddStop`: the first pair of consecutive
offsets with gap `> 0.2` yields its midpoint; otherwise the default `0.5`. -/
def findGapOffset : List Rat → Rat
  | a :: b :: rest => if b - a > 1 / 5 then a + (b - a) / 2 else findGapOffset (b :: rest)
  | _ => 1 / 2

/-- `GradientEditor.handleAddStop`: refused outright at 10 stops; otherwise
appends a `#888888` stop at the gap offset and re-sorts by offset. -/
def handleAddStop (stops : List GradientStop) : List GradientStop :=
  if stops.length ≥ 10 then stops
  else
    let newOffset := findGapOffset (stops.map (fun s => s.offset))
    sortStops (stops ++ [{ offset := newOffset, color := "#888888" }])

/-- `GradientEditor.handleRemoveStop`: refused when only 2 stops remain;
otherwise `splice(index, 1)`. -/
def handleRemoveStop (stops : List GradientStop) (index : Nat) : List GradientStop :=
  if stops.length ≤ 2 then stops else stops.eraseIdx index

/-- `GradientEditor.handleOffsetChange`: replaces the stop's offset by
`Math.min(1, Math.max(0, offset))` and re-sorts by offset.  (The editor
only ever passes indices of existing stops; the `none` arm is unreachable
then.) -/
def handleOffsetChange (stops : List GradientStop) (index : Nat) (offset : Rat) :
    List GradientStop :=
  match stops[index]? with
  | some s => sortStops (stops.set index { s with offset := min 1 (max 0 offset) })
  | none => stops

/-- `GradientEditor.handleColorChange`: replaces the stop's color, offsets
untouched, no re-sort. -/
def handleColorChange (stops : List GradientStop) (index : Nat) (color : String) :
    List GradientStop :=
  match stops[index]? with
  | some s => stops.set index { s with color := color }
  | none => stops

/-- The well-formedness the spec claims for a stop list: sorted ascending
by offset with between 2 and 10 stops. -/
def StopsWellFormed (stops : List GradientStop) : Prop :=
  List.Sorted stopLE stops ∧ 2 ≤ stops.length ∧ stops.length ≤ 10

/-- JavaScript `Math.round`: round half toward positive infinity. -/
noncomputable def jsRound (x : ℝ) : ℤ := ⌊x + 1 / 2⌋

/-- The coordinate computation of `createLinearGradient` in fillStyles.ts
(identical in `GradientEditor.handleApply`): the angle in degrees is
converted to radians and mapped to `(x1, y1, x2, y2)` on the 0–100 box,
the start point using `angleRad + Math.PI`. -/
noncomputable def createLinearGradientCoords (angle : ℝ) : ℤ × ℤ × ℤ × ℤ :=
  let angleRad := angle * Real.pi / 180
  (jsRound (50 + Real.sin (angleRad + Real.pi) * 50),
   jsRound (50 + Real.cos (angleRad + Real.pi) * 50),
   jsRound (50 + Real.sin angleRad * 50),
   jsRound (50 + Real.cos angleRad * 50))

/-- Modelled from the spec: the end coordinate is
`round(50 + sin(θ_rad)·50), round(50 + cos(θ_rad)·50)` and the start
coordinate is computed with `θ + 180°`. -/
noncomputable def specLinearGradientCoords (θ : ℝ) : ℤ × ℤ × ℤ × ℤ :=
  (jsRound (50 + Real.sin ((θ + 180) * Real.pi / 180) * 50),
   jsRound (50 + Real.cos ((θ + 180) * Real.pi / 180) * 50),
   jsRound (50 + Real.sin (θ * Real.pi / 180) * 50),
   jsRound (50 + Real.cos (θ * Real.pi / 180) * 50))

/-- The `FileFormat` union from src/types.ts. -/
inductive FileFormat
  | svg | pdf | eps | ai | json
  deriving DecidableEq

/-- The canvas as the exporters see it: its two serializations
(`canvas.toSVG()` and `JSON.stringify(canvas.toJSON())`). -/
structure FabricCanvas where
  svgContent : String
  jsonContent : String
  deriving DecidableEq

/-- The observable effect of one `exportToFormat` call.  The constructor
`raisedNotImplemented` expresses the `NotImplementedError` outcome the spec
prescribes for stub formats; no code path produces it. -/
inductive ExportEffect
  | savedFile (filename : String) (payload : String)
  | alerted (message : String)
  | raisedNotImplemented
  deriving DecidableEq

/-- `exportToSVG`: `saveAs(blob, filename + ".svg")` with the SVG
serialization. -/
def exportToSVG (canvas : FabricCanvas) (filename : String) : ExportEffect × FabricCanvas :=
  (.savedFile (filename ++ ".svg") canvas.svgContent, canvas)

/-- `exportToJSON`: `saveAs(blob, filename + ".json")` with the JSON
serialization. -/
def exportToJSON (canvas : FabricCanvas) (filename : String) : ExportEffect × FabricCanvas :=
  (.savedFile (filename ++ ".json") canvas.jsonContent, canvas)

/-- `exportToPDF`: only `alert('PDF export coming soon. ...')`; no file,
no canvas change. -/
def exportToPDF (canvas : FabricCanvas) (_filename : String) : ExportEffect × FabricCanvas :=
  (.alerted "PDF export coming soon. For now, try SVG format.", canvas)

/-- `exportToEPS`: only the coming-soon alert. -/
def exportToEPS (canvas : FabricCanvas) (_filename : String) : ExportEffect × FabricCanvas :=
  (.alerted "EPS export coming soon. For now, try SVG format.", canvas)

/-- `exportToAI`: only the coming-soon alert. -/
def exportToAI (canvas : FabricCanvas) (_filename : String) : ExportEffect × FabricCanvas :=
  (.alerted "AI export coming soon. For now, try SVG format.", canvas)

/-- `exportToFormat` from fileOperations.ts: dispatch on the format tag
(the `default` branch is unreachable because `FileFormat` has exactly these
five values). -/
def exportToFormat (canvas : FabricCanvas) (format : FileFormat) (filename : String) :
    ExportEffect × FabricCanvas :=
  match format with
  | .svg => exportToSVG canvas filename
  | .pdf => exportToPDF canvas filename
  | .eps => exportToEPS canvas filename
  | .ai => exportToAI canvas filename
  | .json => exportToJSON canvas filename

lemma saveState_of_guard (m : HistoryManager) (t : Nat)
    (h : m.isProcessingAction = true) : m.saveState t = m := by
  simp [HistoryManager.saveState, h]

lemma foldl_saveState_of_guard (captures : List Nat) (m : HistoryManager)
    (h : m.isProcessingAction = true) :
    captures.foldl (fun s t => s.saveState t) m = m := by
  induction captures with
  | nil => rfl
  | cons t ts ih => rw [List.foldl_cons, saveState_of_guard m t h, ih]

lemma undoFiring_eq_undo (m : HistoryManager) (ts : List Nat) :
    m.undoFiring ts = m.undo := by
  by_cases h : m.currentStateIndex ≤ 0
  · simp [HistoryManager.undoFiring, HistoryManager.undo, h]
  · simp only [HistoryManager.undoFiring, HistoryManager.undo, if_neg h]
    rw [foldl_saveState_of_guard]
    cases hg : m.history[(m.currentStateIndex - 1).toNat]? <;>
      simp [hg, HistoryManager.loadState]

lemma redoFiring_eq_redo (m : HistoryManager) (ts : List Nat) :
    m.redoFiring ts = m.redo := by
  by_cases h : m.currentStateIndex ≥ (m.history.length : Int) - 1
  · simp [HistoryManager.redoFiring, HistoryManager.redo, h]
  · simp only [HistoryManager.redoFiring, HistoryManager.redo, if_neg h]
    rw [foldl_saveState_of_guard]
    cases hg : m.history[(m.currentStateIndex + 1).toNat]? <;>
      simp [hg, HistoryManager.loadState]

/-- C2: while `undo()` or `redo()` is restoring a snapshot the replay guard
is held, every capture request issued during the restore is a no-op on the
snapshot list and cursor, and therefore `undo`/`redo` with any number of
re-entrant capture requests fired by the clear-and-reconstruct coincide
with plain `undo`/`redo`: the engine never records a snapshot of its own
replay. -/
theorem replay_guard_no_capture_C2 :
    (∀ (m : HistoryManager) (t : Nat), m.isProcessingAction = true →
       (m.saveState t).history = m.history ∧
       (m.saveState t).currentStateIndex = m.currentStateIndex) ∧
    (∀ (m : HistoryManager) (ts : List Nat), m.undoFiring ts = m.undo) ∧
    (∀ (m : HistoryManager) (ts : List Nat), m.redoFiring ts = m.redo) := by
  refine ⟨fun m t h => ?_, undoFiring_eq_undo, redoFiring_eq_redo⟩
  rw [saveState_of_guard m t h]
  exact ⟨rfl, rfl⟩

/-- Witness for C2 at a concrete guarded manager and a concrete undo with
one re-entrant capture request. -/
theorem replay_guard_no_capture_witness_C2 :
    ((HistoryManager.mk [⟨"a", 0⟩] 0 "a" true).saveState 5).history = [⟨"a", 0⟩] ∧
    (HistoryManager.mk [⟨"a", 0⟩, ⟨"b", 1⟩] 1 "b" false).undoFiring [7] =
      (HistoryManager.mk [⟨"a", 0⟩, ⟨"b", 1⟩] 1 "b" false).undo :=
  ⟨(replay_guard_no_capture_C2.1 _ 5 rfl).1, replay_guard_no_capture_C2.2.1 _ [7]⟩

/-- C10: for every history state with the replay guard not held,
`clearHistory()` resets the history to exactly one snapshot capturing the
current canvas, with the cursor at index 0, after which `canUndo()` and
`canRedo()` are both false and the canvas itself is unmodified. -/
theorem clear_history_C10 :
    ∀ (m : HistoryManager) (now : Nat), m.isProcessingAction = false →
      m.clearHistory now =
        { history := [{ canvasState := m.canvas, timestamp := now }],
          currentStateIndex := 0, canvas := m.canvas, isProcessingAction := false } ∧
      (m.clearHistory now).canUndo = false ∧
      (m.clearHistory now).canRedo = false := by
  intro m now h
  have e : m.clearHistory now =
      { history := [{ canvasState := m.canvas, timestamp := now }],
        currentStateIndex := 0, canvas := m.canvas, isProcessingAction := false } := by
    simp [HistoryManager.clearHistory, HistoryManager.saveState, h, MAX_HISTORY_LENGTH]
  refine ⟨e, ?_, ?_⟩ <;> rw [e] <;> simp [HistoryManager.canUndo, HistoryManager.canRedo]

/-- Witness for C10 at a concrete two-snapshot manager. -/
theorem clear_history_witness_C10 :
    (HistoryManager.mk [⟨"x", 0⟩, ⟨"y", 1⟩] 1 "y" false).clearHistory 9 =
      { history := [⟨"y", 9⟩], currentStateIndex := 0, canvas := "y",
        isProcessingAction := false } :=
  (clear_history_C10 (HistoryManager.mk [⟨"x", 0⟩, ⟨"y", 1⟩] 1 "y" false) 9 rfl).1

/-- Counterexample for C9: exporting to the stub format `pdf` does not
raise `NotImplementedError`; it completes normally with a coming-soon
alert. -/
theorem export_stub_counterexample_C9 :
    (exportToFormat ⟨"svg0", "json0"⟩ .pdf "drawing").fst =
      .alerted "PDF export coming soon. For now, try SVG format." ∧
    (exportToFormat ⟨"svg0", "json0"⟩ .pdf "drawing").fst ≠
      ExportEffect.raisedNotImplemented := by
  exact ⟨rfl, by decide⟩

/-- C9 (amended): exporting to any stub format (pdf, eps, or ai) performs
no export and mutates nothing: it only shows a coming-soon alert, writes
no file, and leaves the canvas exactly as before the call; no
`NotImplementedError` is raised. -/
theorem export_stub_alerts_C9 :
    ∀ (canvas : FabricCanvas) (filename : String) (format : FileFormat),
      format = .pdf ∨ format = .eps ∨ format = .ai →
      (exportToFormat canvas format filename).snd = canvas ∧
      (∃ msg, (exportToFormat canvas format filename).fst = .alerted msg) := by
  intro c fn f h
  rcases h with h | h | h <;> subst h <;> exact ⟨rfl, ⟨_, rfl⟩⟩

/-- Witness for C9 (amended) at the concrete format `eps`. -/
theorem export_stub_alerts_witness_C9 :
    (exportToFormat ⟨"s", "j"⟩ .eps "file").snd = (⟨"s", "j"⟩ : FabricCanvas) ∧
    ∃ msg, (exportToFormat ⟨"s", "j"⟩ .eps "file").fst = .alerted msg :=
  export_stub_alerts_C9 ⟨"s", "j"⟩ "file" .eps (Or.inr (Or.inl rfl))

lemma foldl_mouseMoveRectangle_anchor (ps : List Pointer) (r : RectShape) :
    (ps.foldl mouseMoveRectangle r).left = r.left ∧
    (ps.foldl mouseMoveRectangle r).top = r.top := by
  induction ps generalizing r with
  | nil => exact ⟨rfl, rfl⟩
  | cons p ps ih => simpa [mouseMoveRectangle] using ih (mouseMoveRectangle r p)

lemma foldl_mouseMoveEllipse_anchor (ps : List Pointer) (e : EllipseShape) :
    (ps.foldl mouseMoveEllipse e).left = e.left ∧
    (ps.foldl mouseMoveEllipse e).top = e.top := by
  induction ps generalizing e with
  | nil => exact ⟨rfl, rfl⟩
  | cons p ps ih => simpa [mouseMoveEllipse] using ih (mouseMoveEllipse e p)

/-- C5: during every pointer-move of a rectangle or ellipse drag the
transient drawable's per-axis extent (`width`/`height` for the rectangle,
`rx`/`ry` for the ellipse) is recomputed as
`max(1, |current pointer − anchor|)` with the anchor corner (`left`, `top`)
unchanged, whatever the preceding moves were; in particular dragging a
rectangle from pointer-down at (10,10) to (110,60) yields position (10,10),
width 100 and height 50. -/
theorem rect_drag_extent_C5 :
    (∀ (a q : Pointer) (ps : List Pointer),
       ((ps ++ [q]).foldl mouseMoveRectangle (mouseDownRectangle a)).left = a.x ∧
       ((ps ++ [q]).foldl mouseMoveRectangle (mouseDownRectangle a)).top = a.y ∧
       ((ps ++ [q]).foldl mouseMoveRectangle (mouseDownRectangle a)).width =
         max 1 ((q.x - a.x).natAbs : Int) ∧
       ((ps ++ [q]).foldl mouseMoveRectangle (mouseDownRectangle a)).height =
         max 1 ((q.y - a.y).natAbs : Int)) ∧
    (∀ (a q : Pointer) (ps : List Pointer),
       ((ps ++ [q]).foldl mouseMoveEllipse (mouseDownEllipse a)).left = a.x ∧
       ((ps ++ [q]).foldl mouseMoveEllipse (mouseDownEllipse a)).top = a.y ∧
       ((ps ++ [q]).foldl mouseMoveEllipse (mouseDownEllipse a)).rx =
         max 1 ((q.x - a.x).natAbs : Int) ∧
       ((ps ++ [q]).foldl mouseMoveEllipse (mouseDownEllipse a)).ry =
         max 1 ((q.y - a.y).natAbs : Int)) ∧
    ([Pointer.mk 110 60].foldl mouseMoveRectangle (mouseDownRectangle ⟨10, 10⟩) =
       { left := 10, top := 10, width := 100, height := 50 }) := by
  refine ⟨fun a q ps => ?_, fun a q ps => ?_, by decide⟩
  · obtain ⟨h1, h2⟩ := foldl_mouseMoveRectangle_anchor ps (mouseDownRectangle a)
    rw [List.foldl_append]
    simp only [mouseDownRectangle] at h1 h2
    simp [mouseMoveRectangle, mouseDownRectangle, h1, h2]
  · obtain ⟨h1, h2⟩ := foldl_mouseMoveEllipse_anchor ps (mouseDownEllipse a)
    rw [List.foldl_append]
    simp only [mouseDownEllipse] at h1 h2
    simp [mouseMoveEllipse, mouseDownEllipse, h1, h2]

/-- C6: `handleLayerDelete` on a single-layer document fails with the
validation error and leaves the state unchanged; with more than one layer
it removes the targeted layer, and when the removed layer was the active
one the first remaining layer becomes active and the canvas is rebuilt as
the grid lines plus that layer's stored objects. -/
theorem delete_layer_C6 :
    (∀ (s : AppState) (id : Nat), s.layers.length = 1 →
       handleLayerDelete s id =
         (s, some (.validationError "Cannot delete the last layer"))) ∧
    (∀ (s : AppState) (id : Nat) (l0 : Layer),
       1 < s.layers.length →
       (s.layers.filter (fun l => l.id != id)).head? = some l0 →
       id = s.currentLayerId →
       handleLayerDelete s id =
         ({ layers := s.layers.filter (fun l => l.id != id),
            currentLayerId := l0.id,
            canvasObjects :=
              s.canvasObjects.filter (fun o => o.isGridLine) ++ l0.objects },
          none)) ∧
    (∀ (s : AppState) (id : Nat),
       1 < s.layers.length → id ≠ s.currentLayerId →
       handleLayerDelete s id =
         ({ s with layers := s.layers.filter (fun l => l.id != id) }, none)) := by
  refine ⟨fun s id h => ?_, fun s id l0 hlen hhead hid => ?_, fun s id hlen hid => ?_⟩
  · simp [handleLayerDelete, h]
  · have hne : ¬ s.layers.length ≤ 1 := by omega
    rw [List.filter_head?] at hhead
    subst hid
    simp [handleLayerDelete, hne, hhead]
  · have hne : ¬ s.layers.length ≤ 1 := by omega
    simp [handleLayerDelete, hne, hid]

/-- Witness for C6: a one-layer state refuses deletion unchanged, and
deleting the active layer of a two-layer state activates the remaining
layer and rebuilds the canvas from its record (grid lines kept). -/
theorem delete_layer_witness_C6 :
    handleLayerDelete ⟨[⟨1, "A", true, false, []⟩], 1, []⟩ 1 =
      (⟨[⟨1, "A", true, false, []⟩], 1, []⟩,
       some (.validationError "Cannot delete the last layer")) ∧
    handleLayerDelete
        ⟨[⟨1, "A", true, false, [⟨10, false⟩]⟩, ⟨2, "B", true, false, []⟩], 1,
         [⟨0, true⟩, ⟨10, false⟩]⟩ 1 =
      (⟨[⟨2, "B", true, false, []⟩], 2, [⟨0, true⟩]⟩, none) := by
  constructor
  · exact delete_layer_C6.1 _ 1 rfl
  · exact delete_layer_C6.2.1 _ 1 ⟨2, "B", true, false, []⟩ (by decide) (by decide) rfl

lemma sortStops_sorted (l : List GradientStop) : List.Sorted stopLE (sortStops l) :=
  List.sorted_insertionSort stopLE l

lemma sortStops_length (l : List GradientStop) : (sortStops l).length = l.length :=
  (List.perm_insertionSort stopLE l).length_eq

lemma sortStops_mem {a : GradientStop} {l : List GradientStop} :
    a ∈ sortStops l ↔ a ∈ l :=
  (List.perm_insertionSort stopLE l).mem_iff

/-- C7: the stop-list operations keep the list sorted ascending by offset
with between 2 and 10 stops; adding is refused at 10 stops, removing is
refused at 2 stops, and an offset update writes the offset clamped into
`[0,1]` (the updated stop, with its clamped offset, is in the re-sorted
list). -/
theorem gradient_stops_invariant_C7 :
    (∀ stops, StopsWellFormed stops → StopsWellFormed (handleAddStop stops)) ∧
    (∀ stops index, StopsWellFormed stops →
       StopsWellFormed (handleRemoveStop stops index)) ∧
    (∀ stops index offset, StopsWellFormed stops →
       StopsWellFormed (handleOffsetChange stops index offset)) ∧
    (∀ stops, 10 ≤ stops.length → handleAddStop stops = stops) ∧
    (∀ stops index, stops.length ≤ 2 → handleRemoveStop stops index = stops) ∧
    (∀ stops index offset s, stops[index]? = some s →
       (⟨min 1 (max 0 offset), s.color⟩ : GradientStop) ∈
         handleOffsetChange stops index offset ∧
       (0 : Rat) ≤ min 1 (max 0 offset) ∧ min 1 (max 0 offset) ≤ 1) := by
  refine ⟨?_, ?_, ?_, ?_, ?_, ?_⟩
  · rintro stops ⟨hs, h2, h10⟩
    by_cases h : stops.length ≥ 10
    · simpa [handleAddStop, h] using ⟨hs, h2, h10⟩
    · simp only [handleAddStop, if_neg h]
      exact ⟨sortStops_sorted _, by rw [sortStops_length]; simp; omega,
        by rw [sortStops_length]; simp; omega⟩
  · rintro stops index ⟨hs, h2, h10⟩
    by_cases h : stops.length ≤ 2
    · simpa [handleRemoveStop, h] using ⟨hs, h2, h10⟩
    · simp only [handleRemoveStop, if_neg h]
      refine ⟨List.Pairwise.sublist (List.eraseIdx_sublist stops index) hs, ?_, ?_⟩ <;>
        rw [List.length_eraseIdx] <;> split <;> omega
  · rintro stops index offset ⟨hs, h2, h10⟩
    cases h : stops[index]? with
    | none => simpa [handleOffsetChange, h] using ⟨hs, h2, h10⟩
    | some s =>
      simp only [handleOffsetChange, h]
      exact ⟨sortStops_sorted _, by rw [sortStops_length, List.length_set]; omega,
        by rw [sortStops_length, List.length_set]; omega⟩
  · intro stops h
    simp [handleAddStop, h]
  · intro stops index h
    simp [handleRemoveStop, h]
  · intro stops index offset s h
    have hidx : index < stops.length := by
      by_contra hc
      rw [List.getElem?_eq_none (by omega)] at h
      exact Option.noConfusion h
    simp only [handleOffsetChange, h]
    refine ⟨?_, le_min (by norm_num) (le_max_left 0 offset), min_le_left 1 _⟩
    rw [sortStops_mem]
    exact List.mem_set stops index hidx _

/-- Witness for C7: the default white-to-black stop pair stays well formed
after an add, and an out-of-range offset update writes the clamped value. -/
theorem gradient_stops_invariant_witness_C7 :
    StopsWellFormed (handleAddStop [⟨0, "#ffffff"⟩, ⟨1, "#000000"⟩]) ∧
    (⟨min 1 (max 0 (3 / 2 : Rat)), "#ffffff"⟩ : GradientStop) ∈
      handleOffsetChange [⟨0, "#ffffff"⟩, ⟨1, "#000000"⟩] 0 (3 / 2) := by
  constructor
  · exact gradient_stops_invariant_C7.1 _ ⟨by decide, by decide, by decide⟩
  · exact (gradient_stops_invariant_C7.2.2.2.2.2 _ 0 (3 / 2) ⟨0, "#ffffff"⟩ rfl).1

/-- C8: for every angle θ the code's linear-gradient coordinates equal the
spec's formula — end point `round(50 + sin(θ_rad)·50), round(50 + cos(θ_rad)·50)`
on the 0–100 box and start point computed with `θ + 180°` — and being a
pure function of θ they are deterministic across repeated calls; at
θ = 90° the coordinate tuple is exactly `(0, 50, 100, 50)`. -/
theorem linear_gradient_coords_C8 :
    (∀ θ : ℝ, createLinearGradientCoords θ = specLinearGradientCoords θ) ∧
    createLinearGradientCoords 90 = (0, 50, 100, 50) := by
  constructor
  · intro θ
    have h : (θ + 180) * Real.pi / 180 = θ * Real.pi / 180 + Real.pi := by
      field_simp
      ring
    simp only [createLinearGradientCoords, specLinearGradientCoords, h]
  · have h90 : (90 : ℝ) * Real.pi / 180 = Real.pi / 2 := by ring
    have hs : Real.sin (Real.pi / 2 + Real.pi) = -1 := by
      rw [Real.sin_add_pi, Real.sin_pi_div_two]
    have hc : Real.cos (Real.pi / 2 + Real.pi) = 0 := by
      rw [Real.cos_add_pi, Real.cos_pi_div_two, neg_zero]
    have g1 : jsRound (50 + -1 * 50) = 0 := by
      have e : (50 : ℝ) + -1 * 50 + 1 / 2 = 1 / 2 := by norm_num
      simp only [jsRound, e]
      rw [Int.floor_eq_iff]
      constructor <;> norm_num
    have g2 : jsRound (50 + 0 * 50) = 50 := by
      have e : (50 : ℝ) + 0 * 50 + 1 / 2 = 101 / 2 := by norm_num
      simp only [jsRound, e]
      rw [Int.floor_eq_iff]
      constructor <;> norm_num
    have g3 : jsRound (50 + 1 * 50) = 100 := by
      have e : (50 : ℝ) + 1 * 50 + 1 / 2 = 201 / 2 := by norm_num
      simp only [jsRound, e]
      rw [Int.floor_eq_iff]
      constructor <;> norm_num
    simp only [createLinearGradientCoords, h90, hs, hc, Real.sin_pi_div_two,
      Real.cos_pi_div_two]
    rw [g1, g2, g3]

lemma initialManager_eq (c0 : String) (t0 : Nat) :
    initialManager c0 t0 = ⟨[⟨c0, t0⟩], 0, c0, false⟩ := by
  simp [initialManager, HistoryManager.saveState, MAX_HISTORY_LENGTH]

lemma commit_spec (h : List HistoryState) (c : String) (p : String × Nat)
    (hlen : h.length + 1 ≤ MAX_HISTORY_LENGTH) :
    commit ⟨h, (h.length : Int) - 1, c, false⟩ p =
      ⟨h ++ [⟨p.1, p.2⟩],
       ((h ++ [(⟨p.1, p.2⟩ : HistoryState)]).length : Int) - 1, p.1, false⟩ := by
  have h1 : ¬ ((h.length : Int) - 1 < (h.length : Int) - 1) := by omega
  have h2 : ¬ (h.length + 1 > MAX_HISTORY_LENGTH) := by omega
  simp [commit, HistoryManager.saveState, h1, h2]

lemma runCommits_spec : ∀ (muts : List (String × Nat)) (h : List HistoryState) (c : String),
    h.length + muts.length ≤ MAX_HISTORY_LENGTH →
    runCommits ⟨h, (h.length : Int) - 1, c, false⟩ muts =
      ⟨h ++ muts.map (fun p => ⟨p.1, p.2⟩),
       (h.length : Int) + muts.length - 1,
       (muts.map Prod.fst).getLastD c, false⟩ := by
  intro muts
  induction muts with
  | nil => intro h c _; simp [runCommits]
  | cons p rest ih =>
    intro h c hlen
    simp only [List.length_cons] at hlen
    rw [runCommits, List.foldl_cons, commit_spec h c p (by omega)]
    have hlen' : (h ++ [(⟨p.1, p.2⟩ : HistoryState)]).length + rest.length ≤
        MAX_HISTORY_LENGTH := by
      simp only [List.length_append, List.length_cons, List.length_nil]
      omega
    have hih := ih (h ++ [(⟨p.1, p.2⟩ : HistoryState)]) p.1 hlen'
    rw [runCommits] at hih
    rw [hih]
    simp only [HistoryManager.mk.injEq, List.append_assoc, List.singleton_append,
      List.map_cons, List.length_append, List.length_cons, List.length_nil,
      List.getLastD_cons, true_and, and_true]
    push_cast
    ring

lemma undo_spec (h : List HistoryState) (idx : Int) (c : String) (g : Bool)
    (hpos : 0 < idx) (hlt : idx < (h.length : Int)) :
    HistoryManager.undo ⟨h, idx, c, g⟩ =
      (⟨h, idx - 1, (h.getD (idx - 1).toNat ⟨"", 0⟩).canvasState, false⟩, true) := by
  have hne : ¬ (idx ≤ 0) := by omega
  have hin : (idx - 1).toNat < h.length := by omega
  have hin' : idx.toNat - 1 < h.length := by omega
  simp only [HistoryManager.undo, if_neg hne]
  rw [List.getElem?_eq_getElem hin]
  simp [HistoryManager.loadState, List.getD_eq_getElem?_getD,
    List.getElem?_eq_getElem hin, List.getElem?_eq_getElem hin']

lemma undoTimes_spec : ∀ (j : Nat), 1 ≤ j →
    ∀ (h : List HistoryState) (idx : Int) (c : String),
      (j : Int) ≤ idx → idx < (h.length : Int) →
      HistoryManager.undoTimes ⟨h, idx, c, false⟩ j =
        ⟨h, idx - j, (h.getD (idx - j).toNat ⟨"", 0⟩).canvasState, false⟩ := by
  intro j
  induction j with
  | zero => omega
  | succ n ih =>
    intro _ h idx c hj hlt
    have hfst : (HistoryManager.undo ⟨h, idx, c, false⟩).fst =
        ⟨h, idx - 1, (h.getD (idx - 1).toNat ⟨"", 0⟩).canvasState, false⟩ := by
      rw [undo_spec h idx c false (by omega) hlt]
    rw [HistoryManager.undoTimes, hfst]
    rcases Nat.eq_zero_or_pos n with h0 | h0
    · subst h0
      rw [HistoryManager.undoTimes]
      have e : idx - ((0 + 1 : Nat) : Int) = idx - 1 := by push_cast; ring
      rw [e]
    · have hih := ih h0 h (idx - 1) ((h.getD (idx - 1).toNat ⟨"", 0⟩).canvasState)
        (by omega) (by omega)
      rw [hih]
      have e : idx - ((n + 1 : Nat) : Int) = idx - 1 - (n : Int) := by push_cast; ring
      rw [e]

/-- C1 (amended): starting from the initial empty document, for every
sequence of N committed mutations with N ≤ 49, undoing N times returns the
canvas to its initial state, and `canUndo()` is false exactly then and at
no earlier point of the undo sequence.  (The bound is 49, not 50: the
constructor's baseline snapshot occupies one of the 50 history slots, so at
N = 50 the baseline is evicted and unreachable.) -/
theorem undo_returns_to_initial_C1 :
    ∀ (c0 : String) (t0 : Nat) (muts : List (String × Nat)),
      muts.length ≤ 49 →
      ((runCommits (initialManager c0 t0) muts).undoTimes muts.length).canvas = c0 ∧
      ((runCommits (initialManager c0 t0) muts).undoTimes muts.length).canUndo = false ∧
      ∀ k : Nat, k < muts.length →
        ((runCommits (initialManager c0 t0) muts).undoTimes k).canUndo = true := by
  intro c0 t0 muts hlen
  by_cases hmuts : muts = []
  · subst hmuts
    rw [initialManager_eq]
    exact ⟨by simp [runCommits, HistoryManager.undoTimes],
      by simp [runCommits, HistoryManager.undoTimes, HistoryManager.canUndo],
      fun k hk => absurd hk (by simp)⟩
  · have hN : 1 ≤ muts.length := by
      cases muts with
      | nil => exact absurd rfl hmuts
      | cons p rest => simp
    have hrun := runCommits_spec muts [⟨c0, t0⟩] c0 (by simp [MAX_HISTORY_LENGTH]; omega)
    norm_num at hrun
    rw [initialManager_eq, hrun]
    have hlen' : ((⟨c0, t0⟩ : HistoryState) :: muts.map fun p => ⟨p.1, p.2⟩).length =
        muts.length + 1 := by simp
    refine ⟨?_, ?_, ?_⟩
    · rw [undoTimes_spec muts.length hN _ _ _ (by omega) (by rw [hlen']; push_cast; omega)]
      simp [List.getD_cons_zero]
    · rw [undoTimes_spec muts.length hN _ _ _ (by omega) (by rw [hlen']; push_cast; omega)]
      simp [HistoryManager.canUndo]
    · intro k hk
      by_cases hk0 : k = 0
      · subst hk0
        rw [HistoryManager.undoTimes]
        simp only [HistoryManager.canUndo, decide_eq_true_eq]
        omega
      · rw [undoTimes_spec k (by omega) _ _ _ (by omega)
          (by rw [hlen']; push_cast; omega)]
        simp only [HistoryManager.canUndo, decide_eq_true_eq]
        omega

/-- Witness for C1 (amended) at one committed mutation followed by one
undo. -/
theorem undo_returns_to_initial_witness_C1 :
    ((runCommits (initialManager "a" 0) [("b", 1)]).undoTimes 1).canvas = "a" ∧
    ((runCommits (initialManager "a" 0) [("b", 1)]).undoTimes 1).canUndo = false := by
  have h := undo_returns_to_initial_C1 "a" 0 [("b", 1)] (by norm_num)
  exact ⟨h.1, h.2.1⟩

set_option maxRecDepth 20000 in
/-- Counterexample for C1 as stated (N ≤ 50): with exactly 50 committed
mutations the constructor's baseline snapshot is evicted, so 50 undos end
on the state after the first mutation ("1"), not the initial state ("0"),
and `canUndo()` is already false after 49 undos. -/
theorem undo_fifty_counterexample_C1 :
    overflowMuts.length = 50 ∧
    ((runCommits (initialManager "0" 0) overflowMuts).undoTimes 50).canvas = "1" ∧
    ((runCommits (initialManager "0" 0) overflowMuts).undoTimes 50).canvas ≠ "0" ∧
    ((runCommits (initialManager "0" 0) overflowMuts).undoTimes 49).canUndo = false := by
  refine ⟨by decide, by decide, by decide, by decide⟩

lemma inv_saveState (m : HistoryManager) (t : Nat) (hm : m.Inv) : (m.saveState t).Inv := by
  obtain ⟨h1, h2, h3⟩ := hm
  by_cases hg : m.isProcessingAction = true
  · rw [saveState_of_guard m t hg]
    exact ⟨h1, h2, h3⟩
  · simp only [HistoryManager.saveState, if_neg hg]
    split <;> split <;>
      (unfold HistoryManager.Inv
       simp only [List.length_drop, List.length_append, List.length_cons,
         List.length_nil, List.length_take, MAX_HISTORY_LENGTH] at *
       omega)

lemma inv_undo (m : HistoryManager) (hm : m.Inv) : ((m.undo).fst).Inv := by
  obtain ⟨h1, h2, h3⟩ := hm
  by_cases hg : m.currentStateIndex ≤ 0
  · simp only [HistoryManager.undo, if_pos hg]
    exact ⟨h1, h2, h3⟩
  · simp only [HistoryManager.undo, if_neg hg]
    cases hx : m.history[(m.currentStateIndex - 1).toNat]? <;>
      simp only [hx, HistoryManager.loadState, HistoryManager.Inv] <;>
      exact ⟨h1, by omega, by omega⟩

lemma inv_redo (m : HistoryManager) (hm : m.Inv) : ((m.redo).fst).Inv := by
  obtain ⟨h1, h2, h3⟩ := hm
  by_cases hg : m.currentStateIndex ≥ (m.history.length : Int) - 1
  · simp only [HistoryManager.redo, if_pos hg]
    exact ⟨h1, h2, h3⟩
  · simp only [HistoryManager.redo, if_neg hg]
    cases hx : m.history[(m.currentStateIndex + 1).toNat]? <;>
      simp only [hx, HistoryManager.loadState, HistoryManager.Inv] <;>
      exact ⟨h1, by omega, by omega⟩

lemma inv_clearHistory (m : HistoryManager) (t : Nat) : (m.clearHistory t).Inv := by
  unfold HistoryManager.clearHistory
  apply inv_saveState
  exact ⟨by simp [MAX_HISTORY_LENGTH], by simp, by simp⟩

lemma inv_initialManager (c0 : String) (t0 : Nat) : (initialManager c0 t0).Inv := by
  rw [initialManager_eq]
  exact ⟨by simp [MAX_HISTORY_LENGTH], by simp, by simp⟩

lemma inv_runHistOps (ops : List HistOp) : ∀ m : HistoryManager, m.Inv →
    (runHistOps m ops).Inv := by
  induction ops with
  | nil => intro m hm; exact hm
  | cons op rest ih =>
    intro m hm
    have hstep : (applyHistOp m op).Inv := by
      cases op with
      | save t => exact inv_saveState m t hm
      | doUndo => exact inv_undo m hm
      | doRedo => exact inv_redo m hm
      | clear t => exact inv_clearHistory m t
    rw [runHistOps, List.foldl_cons, ← runHistOps]
    exact ih _ hstep

/-- C3: along every sequence of public history operations started on a
fresh manager, the snapshot list never exceeds 50 entries and the cursor
stays in `[-1, length - 1]`; and when a capture would push the length past
50 (cursor at the end of a full list) the oldest entry is evicted and the
cursor value is preserved (the append moves it up, the shift moves it back
down), the length staying at 50. -/
theorem history_bounds_eviction_C3 :
    (∀ (c0 : String) (t0 : Nat) (ops : List HistOp),
       (runHistOps (initialManager c0 t0) ops).Inv) ∧
    (∀ (m : HistoryManager) (t : Nat),
       m.isProcessingAction = false →
       m.currentStateIndex = (m.history.length : Int) - 1 →
       m.history.length = MAX_HISTORY_LENGTH →
       (m.saveState t).history =
         m.history.drop 1 ++ [{ canvasState := m.canvas, timestamp := t }] ∧
       (m.saveState t).currentStateIndex = m.currentStateIndex ∧
       (m.saveState t).history.length = MAX_HISTORY_LENGTH) := by
  constructor
  · intro c0 t0 ops
    exact inv_runHistOps ops _ (inv_initialManager c0 t0)
  · intro m t hg hidx hlen
    have hg' : ¬ (m.isProcessingAction = true) := by rw [hg]; simp
    have ht : ¬ (m.currentStateIndex < (m.history.length : Int) - 1) := by omega
    have he : (m.history ++ [(⟨m.canvas, t⟩ : HistoryState)]).length >
        MAX_HISTORY_LENGTH := by
      simp only [List.length_append, List.length_cons, List.length_nil]
      omega
    have hlen50 : 1 ≤ m.history.length := by
      rw [hlen]
      norm_num [MAX_HISTORY_LENGTH]
    simp only [HistoryManager.saveState, if_neg hg', if_neg ht, if_pos he]
    refine ⟨@List.drop_append_of_le_length _ m.history
      [(⟨m.canvas, t⟩ : HistoryState)] 1 hlen50, ?_, ?_⟩
    · simp only [List.length_append, List.length_cons, List.length_nil]
      omega
    · rw [List.length_drop]
      simp only [List.length_append, List.length_cons, List.length_nil]
      omega

/-- Witness for C3: a concrete two-operation run satisfies the invariant,
and a concrete full 50-entry manager evicts its oldest entry on capture. -/
theorem history_bounds_eviction_witness_C3 :
    (runHistOps (initialManager "c" 0) [HistOp.save 1, HistOp.doUndo]).Inv ∧
    ((HistoryManager.mk (List.replicate 50 ⟨"h", 0⟩) 49 "c" false).saveState 5).history =
      (List.replicate 50 (⟨"h", 0⟩ : HistoryState)).drop 1 ++ [⟨"c", 5⟩] := by
  constructor
  · exact history_bounds_eviction_C3.1 "c" 0 [HistOp.save 1, HistOp.doUndo]
  · exact (history_bounds_eviction_C3.2
      (HistoryManager.mk (List.replicate 50 ⟨"h", 0⟩) 49 "c" false) 5 rfl
      (by simp) (by simp [MAX_HISTORY_LENGTH])).1

lemma saveState_trunc (m : HistoryManager) (t : Nat)
    (hg : m.isProcessingAction = false)
    (hlt : m.currentStateIndex < (m.history.length : Int) - 1)
    (hlen : m.history.length ≤ MAX_HISTORY_LENGTH) :
    m.saveState t =
      { m with
        history := m.history.take (m.currentStateIndex + 1).toNat ++ [⟨m.canvas, t⟩],
        currentStateIndex :=
          ((m.history.take (m.currentStateIndex + 1).toNat ++
            [(⟨m.canvas, t⟩ : HistoryState)]).length : Int) - 1 } := by
  have hg' : ¬ (m.isProcessingAction = true) := by rw [hg]; simp
  have hno : ¬ ((m.history.take (m.currentStateIndex + 1).toNat ++
      [(⟨m.canvas, t⟩ : HistoryState)]).length > MAX_HISTORY_LENGTH) := by
    simp only [List.length_append, List.length_cons, List.length_nil, List.length_take,
      MAX_HISTORY_LENGTH] at *
    omega
  simp only [HistoryManager.saveState, if_neg hg', if_pos hlt, if_neg hno]

/-- C4: after any undo (with the cursor invariant holding and undo
available) a new committed capture leaves `canRedo()` false: the capture
first discards the snapshot entries strictly after the cursor (the redo
branch), then appends the new snapshot, leaving the cursor at the last
index. -/
theorem redo_branch_discarded_C4 :
    ∀ (m : HistoryManager) (t : Nat),
      m.isProcessingAction = false →
      m.canUndo = true →
      m.Inv →
      (((m.undo).fst.saveState t).canRedo = false ∧
       ((m.undo).fst.saveState t).history =
         (m.undo).fst.history.take ((m.undo).fst.currentStateIndex + 1).toNat ++
           [{ canvasState := (m.undo).fst.canvas, timestamp := t }] ∧
       ((m.undo).fst.saveState t).currentStateIndex =
         ((((m.undo).fst.saveState t).history.length : Int) - 1)) := by
  intro m t hg hcu hm
  obtain ⟨h1, h2, h3⟩ := hm
  have hpos : 0 < m.currentStateIndex := by
    simpa [HistoryManager.canUndo] using hcu
  have hlt : m.currentStateIndex < (m.history.length : Int) := by omega
  have hfst : (m.undo).fst =
      ⟨m.history, m.currentStateIndex - 1,
       (m.history.getD (m.currentStateIndex - 1).toNat ⟨"", 0⟩).canvasState, false⟩ :=
    congrArg Prod.fst
      (undo_spec m.history m.currentStateIndex m.canvas m.isProcessingAction hpos hlt)
  rw [hfst]
  rw [saveState_trunc _ t rfl (by simpa using by omega) (by simpa using h1)]
  refine ⟨?_, rfl, rfl⟩
  simp [HistoryManager.canRedo]

/-- Witness for C4 at a concrete three-snapshot manager: undo then capture
discards the redo entry and leaves the cursor last, `canRedo()` false. -/
theorem redo_branch_discarded_witness_C4 :
    ((HistoryManager.mk [⟨"a", 0⟩, ⟨"b", 1⟩, ⟨"c", 2⟩] 2 "c" false).undo.fst.saveState
        7).canRedo = false := by
  exact (redo_branch_discarded_C4 (HistoryManager.mk [⟨"a", 0⟩, ⟨"b", 1⟩, ⟨"c", 2⟩] 2 "c"
    false) 7 rfl rfl ⟨by simp [MAX_HISTORY_LENGTH], by simp, by simp⟩).1
